import Mathlib

/-!
Shallow embedding of the price-history / change-detection / alert logic of
`binance_monitor.py` (classes `PriceHistory`, `BinanceMonitor`).

Modelling conventions:
* Timestamps are integers counting microseconds since the epoch.  Python's
  `datetime.utcnow()` has microsecond resolution, and
  `datetime.isoformat` / `datetime.fromisoformat` are exact mutual inverses on
  such values, so an instant is represented by its microsecond count.
  `timedelta(minutes=w)` is `w * 60_000_000` microseconds and
  `timedelta(hours=h)` is `h * 3_600_000_000` microseconds.
* Prices and percentages are rationals standing for the Python floats; Python's
  `round(x, 2)` (round half to even at two decimals) is modelled exactly on ℚ.
* The in-memory store `self.history` (a `dict` from symbol to list of sample
  records, in insertion order) is modelled as an association list with unique
  keys, looked up and updated in order.
-/

set_option maxRecDepth 2000

namespace BinanceMonitor

/-- A price sample, one element of `self.history[symbol]`:
`{"timestamp": now.isoformat(), "price": float(price)}`.  The ISO string is
represented by the instant it denotes (microseconds since the epoch). -/
structure Sample where
  timestamp : Int
  price : ℚ
deriving DecidableEq, Repr

/-- Microseconds in one minute: `timedelta(minutes=1)`. -/
def microsPerMinute : Int := 60000000

/-- Microseconds in one hour: `timedelta(hours=1)`. -/
def microsPerHour : Int := 3600000000

/-- Python's `round` to the nearest integer: round half to even. -/
def pyRound0 (q : ℚ) : Int :=
  if q - ⌊q⌋ < 1/2 then ⌊q⌋
  else if (1:ℚ)/2 < q - ⌊q⌋ then ⌊q⌋ + 1
  else if ⌊q⌋ % 2 = 0 then ⌊q⌋ else ⌊q⌋ + 1

/-- Python's `round(x, 2)`: round half to even at two decimal places. -/
def pyRound2 (q : ℚ) : ℚ := (pyRound0 (q * 100) : ℚ) / 100

/-- One entry of the mapping returned by `PriceHistory.get_price_changes`:
the record `{"start_price": ..., "current_price": ..., "change_percent": ...}`.
`start_price = none` models the Python value `None`. -/
structure ChangeResult where
  start_price : Option ℚ
  current_price : ℚ
  change_percent : ℚ
deriving DecidableEq, Repr

/-- The inner `for entry in self.history[symbol]` loop of
`get_price_changes`: scan the series in insertion order; on the first entry
with `entry_time >= window_start`, if its price is `<= 0` keep scanning
(`continue`), otherwise return it as the window's start price (`break`);
the `for ... else` branch (scan exhausted) yields `none`. -/
def findStartPrice (entries : List Sample) (windowStart : Int) : Option ℚ :=
  match entries with
  | [] => none
  | e :: rest =>
    if windowStart ≤ e.timestamp then
      if e.price ≤ 0 then findStartPrice rest windowStart
      else some e.price
    else findStartPrice rest windowStart

/-- The body of the `for window, _ in time_windows_dict.items()` loop of
`get_price_changes` for a single window: compute
`window_start = current_time - timedelta(minutes=window)`, scan for a start
price, and build the result record (the insufficient-data branch sets
`start_price = None` and `change_percent = 0.0`). -/
def computeChange (entries : List Sample) (currentPrice : ℚ) (currentTime : Int)
    (window : Int) : ChangeResult :=
  let windowStart := currentTime - window * microsPerMinute
  match findStartPrice entries windowStart with
  | some startPrice =>
      ⟨some startPrice, currentPrice,
        pyRound2 (((currentPrice - startPrice) / startPrice) * 100)⟩
  | none => ⟨none, currentPrice, 0⟩

/-- `PriceHistory.get_price_changes` on one symbol's series: empty series
yields the empty mapping; otherwise `current_price` and `current_time` come
from the last sample and every window is evaluated.  The `dict` of windows is
modelled as the list of its keys (unique, in insertion order), the returned
`dict` as an association list. -/
def get_price_changes (entries : List Sample) (windows : List Int) :
    List (Int × ChangeResult) :=
  match entries.getLast? with
  | none => []
  | some last =>
      windows.map (fun w => (w, computeChange entries last.price last.timestamp w))

/-- `PriceHistory.cleanup_old_data` on one symbol's series: keep exactly the
entries with `datetime.fromisoformat(entry["timestamp"]) > cutoff_time` where
`cutoff_time = current_time - timedelta(hours=self.max_hours)`. -/
def cleanup_old_data (entries : List Sample) (currentTime : Int) (maxHours : Int) :
    List Sample :=
  entries.filter (fun e => decide (currentTime - maxHours * microsPerHour < e.timestamp))

/-- The store `self.history`: a `dict` from symbol to series, modelled as an
insertion-ordered association list. -/
abbrev Store := List (String × List Sample)

/-- Dictionary lookup `self.history[symbol]`, with the missing-key case
(`if symbol not in self.history: self.history[symbol] = []`) reading as the
empty series. -/
def getSeries (h : Store) (k : String) : List Sample :=
  match h with
  | [] => []
  | (k', v) :: rest => if k' = k then v else getSeries rest k

/-- Dictionary update `self.history[symbol] = v`: replace the value at an
existing key, or insert the new key at the end (Python dicts keep insertion
order). -/
def setSeries (h : Store) (k : String) (v : List Sample) : Store :=
  match h with
  | [] => [(k, v)]
  | (k', v') :: rest => if k' = k then (k, v) :: rest else (k', v') :: setSeries rest k v

/-- `PriceHistory.add_price`: a missing (`None`) or non-positive price is
ignored (the store is untouched and `save_history` is not called, flag
`false`); otherwise the sample `{now, price}` is appended to the symbol's
series, `cleanup_old_data(symbol, now)` trims it, and the store is saved
(flag `true`). -/
def add_price (h : Store) (symbol : String) (price : Option ℚ) (now : Int)
    (maxHours : Int) : Store × Bool :=
  match price with
  | none => (h, false)
  | some p =>
    if p ≤ 0 then (h, false)
    else
      let entries := getSeries h symbol ++ [⟨now, p⟩]
      (setSeries h symbol (cleanup_old_data entries now maxHours), true)

/-- One append operation: symbol, fetched price (possibly `None`), time. -/
abbrev Op := String × Option ℚ × Int

/-- A sequence of `add_price` calls applied in order. -/
def applyOps (h : Store) (maxHours : Int) : List Op → Store
  | [] => h
  | (k, p, t) :: rest => applyOps (add_price h k p t maxHours).1 maxHours rest

/-- `BinanceMonitor.alert_cooldown = 5 * 60` seconds. -/
def alert_cooldown : ℚ := 5 * 60

/-- The body of `BinanceMonitor.check_for_alerts` for one `(symbol, window)`
pair with its configured threshold: skip on invalid data (`start_price` is
`None` or `<= 0`, or `current_price <= 0`), skip when `abs(change_percent)`
exceeds 1000, and fire exactly when `abs(change_percent) >= threshold` and
`time.time() - last_alert > alert_cooldown` (with `last_alert` defaulting
to 0). -/
def alertFires (cd : ChangeResult) (threshold : ℚ) (lastAlert : ℚ) (now : ℚ) : Bool :=
  match cd.start_price with
  | none => false
  | some sp =>
    if sp ≤ 0 then false
    else if cd.current_price ≤ 0 then false
    else if 1000 < |cd.change_percent| then false
    else if threshold ≤ |cd.change_percent| then decide (alert_cooldown < now - lastAlert)
    else false

/-- One cycle of `check_for_alerts` for a fixed `(symbol, window)` pair:
when the alert fires, `self.last_alert_time[alert_key]` is set to the current
time, otherwise it is unchanged. -/
def alertStep (threshold : ℚ) (lastAlert : ℚ) (cd : ChangeResult) (now : ℚ) :
    Bool × ℚ :=
  if alertFires cd threshold lastAlert now then (true, now) else (false, lastAlert)

/-- Run consecutive monitoring cycles for a fixed `(symbol, window)` pair,
threading the `last_alert_time` entry through; each cycle supplies the
window's `ChangeResult` and the wall-clock time, and the list of `fired`
flags is returned. -/
def runAlerts (threshold : ℚ) (lastAlert : ℚ) : List (ChangeResult × ℚ) → List Bool
  | [] => []
  | (cd, t) :: rest =>
    let s := alertStep threshold lastAlert cd t
    s.1 :: runAlerts threshold s.2 rest

/-- The JSON document written by `PriceHistory.save_history`
(`json.dump(self.history, f)`) and read back by `load_history`
(`json.load(f)`).  A sample's `"timestamp"` field is the ISO-8601 string
produced by `datetime.isoformat`; since `datetime.fromisoformat` is its exact
inverse, that string is represented by the instant it denotes (`jtime`). -/
inductive JVal where
  | jnull
  | jbool (b : Bool)
  | jnum (q : ℚ)
  | jstr (s : String)
  | jtime (t : Int)
  | jarr (xs : List JVal)
  | jobj (fields : List (String × JVal))

/-- Serialisation of one sample record, as `json.dump` writes it. -/
def encodeSample (s : Sample) : JVal :=
  .jobj [("timestamp", .jtime s.timestamp), ("price", .jnum s.price)]

/-- Serialisation of the whole store, as `json.dump(self.history, f)` writes
it: an object whose fields are the symbols in insertion order, each holding
the array of its sample records. -/
def encodeStore (h : Store) : JVal :=
  .jobj (h.map (fun kv => (kv.1, .jarr (kv.2.map encodeSample))))

/-- Reading one sample record back from the parsed JSON. -/
def decodeSample : JVal → Option Sample
  | .jobj [("timestamp", .jtime t), ("price", .jnum p)] => some ⟨t, p⟩
  | _ => none

/-- Reading a series back from the parsed JSON array. -/
def decodeSamples : List JVal → Option (List Sample)
  | [] => some []
  | v :: rest =>
    match decodeSample v, decodeSamples rest with
    | some s, some ss => some (s :: ss)
    | _, _ => none

/-- Reading the store's fields back from the parsed JSON object. -/
def decodeFields : List (String × JVal) → Option Store
  | [] => some []
  | (k, .jarr xs) :: rest =>
    match decodeSamples xs, decodeFields rest with
    | some ss, some h => some ((k, ss) :: h)
    | _, _ => none
  | _ => none

/-- `PriceHistory.load_history` applied to the document written by
`save_history`: interpret the parsed JSON value as the history mapping. -/
def decodeStore : JVal → Option Store
  | .jobj fields => decodeFields fields
  | _ => none

end BinanceMonitor

namespace BinanceMonitor

/-- The scan of `get_price_changes` returns the price of the first entry (in
insertion order) whose timestamp is at or after the window start and whose
price is positive. -/
theorem findStartPrice_eq_find (entries : List Sample) (c : Int) :
    findStartPrice entries c =
      (entries.find? (fun e => decide (c ≤ e.timestamp) && decide (0 < e.price))).map
        (fun e => e.price) := by
  induction entries with
  | nil => rfl
  | cons e rest ih =>
    by_cases h1 : c ≤ e.timestamp
    · by_cases h2 : e.price ≤ 0
      · have h3 : ¬ (0 < e.price) := not_lt.mpr h2
        simp [findStartPrice, List.find?_cons, h1, h2, h3, ih]
      · have h3 : 0 < e.price := lt_of_not_le h2
        simp [findStartPrice, List.find?_cons, h1, h2, h3]
    · simp [findStartPrice, List.find?_cons, h1, ih]

/-- When every entry's price is positive, the positivity conjunct of the scan
predicate is redundant. -/
theorem find_timestamp_of_all_pos (entries : List Sample) (c : Int)
    (hpos : ∀ e ∈ entries, 0 < e.price) :
    entries.find? (fun e => decide (c ≤ e.timestamp) && decide (0 < e.price)) =
      entries.find? (fun e => decide (c ≤ e.timestamp)) := by
  induction entries with
  | nil => rfl
  | cons e rest ih =>
    have he : 0 < e.price := hpos e (List.mem_cons_self e rest)
    by_cases h1 : c ≤ e.timestamp
    · simp [List.find?_cons, h1, he]
    · have := ih (fun x hx => hpos x (List.mem_cons_of_mem e hx))
      simp [List.find?_cons, h1, this]

/-- Evaluating `get_price_changes` on a non-empty series reduces to
`computeChange` per window, with the current price and reference time taken
from the last sample. -/
theorem get_price_changes_single (entries : List Sample) (w : Int) (last : Sample)
    (hlast : entries.getLast? = some last) :
    get_price_changes entries [w] =
      [(w, computeChange entries last.price last.timestamp w)] := by
  simp [get_price_changes, hlast]

/-- C1: on a non-empty series whose prices are all positive, for every window
`w`, `get_price_changes` selects as the window's start sample the first sample
in insertion order with `timestamp >= now_reference - w minutes` (where
`now_reference` is the latest sample's timestamp; `List.find?` returns the
first match, so ties in the timestamp resolve to the earliest-inserted
sample), and the window's result carries that sample's price as
`start_price`, the latest sample's price as `current_price`, and
`change_percent = round(((current - start) / start) * 100, 2)`. -/
theorem get_price_changes_selects_first_in_window
    (entries : List Sample) (w : Int) (last s : Sample)
    (hlast : entries.getLast? = some last)
    (hpos : ∀ e ∈ entries, 0 < e.price)
    (hfind : entries.find?
        (fun e => decide (last.timestamp - w * microsPerMinute ≤ e.timestamp)) = some s) :
    get_price_changes entries [w] =
      [(w, ⟨some s.price, last.price,
        pyRound2 (((last.price - s.price) / s.price) * 100)⟩)] := by
  rw [get_price_changes_single entries w last hlast]
  simp only [computeChange, findStartPrice_eq_find]
  rw [find_timestamp_of_all_pos _ _ hpos, hfind]
  rfl

/-- Witness for C1, the spec's own example: samples `[(t0, 100), (t1, 110)]`
with `t1 - t0 = 4` minutes and window `5` give `start_price = 100`,
`current_price = 110`, `change_percent = 10.0`. -/
theorem get_price_changes_selects_first_in_window_witness :
    get_price_changes [⟨0, 100⟩, ⟨240000000, 110⟩] [5] =
      [(5, ⟨some 100, 110, 10⟩)] := by
  have h := get_price_changes_selects_first_in_window
    [⟨0, 100⟩, ⟨240000000, 110⟩] 5 ⟨240000000, 110⟩ ⟨0, 100⟩
    (by decide) (by decide) (by decide)
  rw [h]
  norm_num [pyRound2, pyRound0]

/-- The `start_price` field of a window's result is the price of the first
entry at or after the window start whose price is positive, if any. -/
theorem computeChange_start_price (entries : List Sample) (cp : ℚ) (ct w : Int) :
    (computeChange entries cp ct w).start_price =
      (entries.find? (fun e =>
        decide (ct - w * microsPerMinute ≤ e.timestamp) && decide (0 < e.price))).map
        (fun e => e.price) := by
  simp only [computeChange, findStartPrice_eq_find]
  cases entries.find? (fun e =>
      decide (ct - w * microsPerMinute ≤ e.timestamp) && decide (0 < e.price)) with
  | none => rfl
  | some e => rfl

/-- Whenever a window's result carries a start price, that price is positive. -/
theorem computeChange_start_price_pos (entries : List Sample) (cp : ℚ) (ct w : Int)
    (p : ℚ) (h : (computeChange entries cp ct w).start_price = some p) : 0 < p := by
  rw [computeChange_start_price] at h
  rcases hf : entries.find? (fun e =>
      decide (ct - w * microsPerMinute ≤ e.timestamp) && decide (0 < e.price)) with _ | e
  · rw [hf] at h; simp at h
  · rw [hf] at h
    simp only [Option.map_some'] at h
    have := List.find?_some hf
    simp only [Bool.and_eq_true, decide_eq_true_eq] at this
    cases h
    exact this.2

/-- C2 counterexample: the series `[(0, 100)]` (one sample, at the latest
timestamp) has no sample older than the window start for the 5-minute window
(`timestamp < now_reference - 5 min` holds for no sample), yet
`get_price_changes` returns `start_price = some 100`, not `none`: with no
sample older than the cutoff, the first sample is at or after the cutoff and
is selected as the window start. -/
theorem changes_no_older_sample_counterexample :
    (∀ e ∈ [(⟨0, 100⟩ : Sample)], ¬ (e.timestamp < 0 - 5 * microsPerMinute)) ∧
    get_price_changes [(⟨0, 100⟩ : Sample)] [5] = [(5, ⟨some 100, 100, 0⟩)] := by
  constructor
  · decide
  · norm_num [get_price_changes, computeChange, findStartPrice, pyRound2, pyRound0,
      microsPerMinute]

/-- C2 amended: a window's result has `start_price = none` and
`change_percent = 0.0` exactly in the insufficient-data case that the code
implements, namely when no sample has both `timestamp >= now_reference - w
minutes` and a positive price (the `for ... else` branch). -/
theorem get_price_changes_insufficient_data (entries : List Sample) (w : Int)
    (last : Sample) (hlast : entries.getLast? = some last)
    (hnone : ∀ e ∈ entries,
      ¬ (last.timestamp - w * microsPerMinute ≤ e.timestamp ∧ 0 < e.price)) :
    get_price_changes entries [w] = [(w, ⟨none, last.price, 0⟩)] := by
  rw [get_price_changes_single entries w last hlast]
  have hf : entries.find? (fun e =>
      decide (last.timestamp - w * microsPerMinute ≤ e.timestamp) &&
        decide (0 < e.price)) = none := by
    rw [List.find?_eq_none]
    intro e he
    simp only [Bool.and_eq_true, decide_eq_true_eq]
    exact fun hc => hnone e he hc
  simp only [computeChange, findStartPrice_eq_find, hf]
  rfl

/-- Witness for the amended C2: a series whose single sample lies before the
cutoff (window `-5` puts the cutoff after the only sample), giving
`start_price = none` and `change_percent = 0.0`. -/
theorem get_price_changes_insufficient_data_witness :
    get_price_changes [(⟨0, 100⟩ : Sample)] [-5] = [(-5, ⟨none, 100, 0⟩)] :=
  get_price_changes_insufficient_data [⟨0, 100⟩] (-5) ⟨0, 100⟩ (by decide) (by decide)

/-- C3 counterexample: in the series `[(0, 0), (100000000, 100)]` with the
5-minute window, the first sample at or after the cutoff is `(0, 0)` with
price exactly `0`, yet the window is not treated as insufficient data: the
code `continue`s past the zero-price sample and selects the next qualifying
sample, returning `start_price = some 100`, not `none`. -/
theorem changes_zero_start_counterexample :
    (List.find? (fun e => decide ((100000000 : Int) - 5 * microsPerMinute ≤ e.timestamp))
        [(⟨0, 0⟩ : Sample), ⟨100000000, 100⟩] = some ⟨0, 0⟩) ∧
    get_price_changes [(⟨0, 0⟩ : Sample), ⟨100000000, 100⟩] [5] =
      [(5, ⟨some 100, 100, 0⟩)] := by
  constructor
  · decide
  · norm_num [get_price_changes, computeChange, findStartPrice, pyRound2, pyRound0,
      microsPerMinute]

/-- C3 amended: when the first sample at or after the cutoff has price exactly
`0`, `get_price_changes` never divides by it; it skips it and uses as start
price the first sample at or after the cutoff with positive price, and in
particular the window's `start_price` is never `some 0` (`start_price = none`
results only when no qualifying positive-price sample exists). -/
theorem get_price_changes_skips_zero_start (entries : List Sample) (w : Int)
    (last s : Sample) (hlast : entries.getLast? = some last)
    (_hfirst : entries.find?
      (fun e => decide (last.timestamp - w * microsPerMinute ≤ e.timestamp)) = some s)
    (_hzero : s.price = 0) :
    ∀ r, (w, r) ∈ get_price_changes entries [w] →
      r.start_price = (entries.find? (fun e =>
          decide (last.timestamp - w * microsPerMinute ≤ e.timestamp) &&
            decide (0 < e.price))).map (fun e => e.price) ∧
        r.start_price ≠ some 0 := by
  intro r hr
  rw [get_price_changes_single entries w last hlast] at hr
  simp only [List.mem_singleton, Prod.mk.injEq] at hr
  rcases hr with ⟨-, hr⟩
  subst hr
  refine ⟨computeChange_start_price entries last.price last.timestamp w, fun hc => ?_⟩
  have := computeChange_start_price_pos entries last.price last.timestamp w 0 hc
  exact lt_irrefl 0 this

/-- Witness for the amended C3: for the series `[(0, 0), (100000000, 100)]`
and window `5`, whose first in-window sample has price `0`, the result's
start price is that of the next qualifying sample (`100`), and is not
`some 0`. -/
theorem get_price_changes_skips_zero_start_witness :
    (⟨some 100, 100, 0⟩ : ChangeResult).start_price =
      (List.find? (fun e => decide ((100000000 : Int) - 5 * microsPerMinute ≤ e.timestamp)
          && decide (0 < e.price)) [(⟨0, 0⟩ : Sample), ⟨100000000, 100⟩]).map
        (fun e => e.price) ∧
      (⟨some 100, 100, 0⟩ : ChangeResult).start_price ≠ some 0 := by
  have hm : ((5 : Int), (⟨some 100, 100, 0⟩ : ChangeResult)) ∈
      get_price_changes [(⟨0, 0⟩ : Sample), ⟨100000000, 100⟩] [5] := by
    have he : get_price_changes [(⟨0, 0⟩ : Sample), ⟨100000000, 100⟩] [5] =
        [(5, ⟨some 100, 100, 0⟩)] := by
      norm_num [get_price_changes, computeChange, findStartPrice, pyRound2, pyRound0,
        microsPerMinute]
    rw [he]
    exact List.mem_singleton.mpr rfl
  exact get_price_changes_skips_zero_start [⟨0, 0⟩, ⟨100000000, 100⟩] 5
    ⟨100000000, 100⟩ ⟨0, 0⟩ (by decide) (by decide) (by decide) _ hm

/-- Reading back the key just written: `setSeries` followed by `getSeries`
on the same key yields the stored series. -/
theorem getSeries_setSeries (h : Store) (k : String) (v : List Sample) :
    getSeries (setSeries h k v) k = v := by
  induction h with
  | nil => simp [setSeries, getSeries]
  | cons kv rest ih =>
    rcases kv with ⟨k', v'⟩
    by_cases hk : k' = k
    · simp [setSeries, getSeries, hk]
    · simp [setSeries, getSeries, hk, ih]

/-- Membership in the series of `key` after a successful `add_price`: exactly
the old samples and the new one that lie strictly inside the retention
horizon (`timestamp > now - retention`). -/
theorem mem_add_price_series (h : Store) (k : String) (p : ℚ)
    (now maxHours : Int) (hp : 0 < p) (s : Sample) :
    s ∈ getSeries (add_price h k (some p) now maxHours).1 k ↔
      ((s ∈ getSeries h k ∨ s = ⟨now, p⟩) ∧
        now - maxHours * microsPerHour < s.timestamp) := by
  simp only [add_price, if_neg (not_le.mpr hp), getSeries_setSeries,
    cleanup_old_data, List.mem_filter, List.mem_append, List.mem_singleton,
    decide_eq_true_eq]

/-- C4 counterexample: appending at `now = 24 h` to a series holding one
sample at timestamp `0 = now - retention_hours` exactly (with the configured
`MAX_HISTORY_HOURS = 24`), the trim removes that boundary sample — the code
keeps only samples with `timestamp > cutoff`, strictly — whereas the claim
says a sample whose timestamp equals `now - retention_hours` is retained. -/
theorem trim_boundary_counterexample :
    (add_price [("BTCUSDT", [⟨0, 100⟩])] "BTCUSDT" (some 200)
        (24 * microsPerHour) 24).1 =
      [("BTCUSDT", [⟨24 * microsPerHour, 200⟩])] := by
  norm_num [add_price, getSeries, setSeries, cleanup_old_data, microsPerHour]

/-- C4 amended: for every `add_price(key, price, now)` with `price > 0`, the
trim performed after the append removes exactly the samples of the key's
series with `timestamp <= now - retention_hours`; in particular a sample
whose timestamp equals `now - retention_hours` exactly is removed. -/
theorem add_price_trims_at_or_before_cutoff (h : Store) (k : String) (p : ℚ)
    (now maxHours : Int) (hp : 0 < p) :
    ∀ s : Sample, s ∈ getSeries (add_price h k (some p) now maxHours).1 k ↔
      ((s ∈ getSeries h k ∨ s = ⟨now, p⟩) ∧
        ¬ (s.timestamp ≤ now - maxHours * microsPerHour)) := by
  intro s
  rw [mem_add_price_series h k p now maxHours hp s]
  constructor
  · rintro ⟨hm, ht⟩; exact ⟨hm, by omega⟩
  · rintro ⟨hm, ht⟩; exact ⟨hm, by omega⟩

/-- Witness for the amended C4: with `retention = 24` hours and `now = 24 h`,
the pre-existing boundary sample `(0, 100)` sits at `now - retention` exactly
and is not retained. -/
theorem add_price_trims_at_or_before_cutoff_witness :
    (⟨0, 100⟩ : Sample) ∈
        getSeries (add_price [("BTCUSDT", [⟨0, 100⟩])] "BTCUSDT" (some 200)
          (24 * microsPerHour) 24).1 "BTCUSDT" ↔
      (((⟨0, 100⟩ : Sample) ∈ getSeries [("BTCUSDT", [⟨0, 100⟩])] "BTCUSDT" ∨
          (⟨0, 100⟩ : Sample) = ⟨24 * microsPerHour, 200⟩) ∧
        ¬ ((⟨0, 100⟩ : Sample).timestamp ≤ 24 * microsPerHour - 24 * microsPerHour)) :=
  add_price_trims_at_or_before_cutoff [("BTCUSDT", [⟨0, 100⟩])] "BTCUSDT" 200
    (24 * microsPerHour) 24 (by norm_num) ⟨0, 100⟩

/-- C5: after any successful append (`price > 0`, any prior store, hence any
point of any sequence of appends) and its trim complete, every sample
retained in the appended key's series has age at most the retention horizon
relative to the append's `now`, and no sample older than
`now - retention_hours` remains. -/
theorem add_price_retention_invariant (h : Store) (k : String) (p : ℚ)
    (now maxHours : Int) (hp : 0 < p) :
    ∀ s ∈ getSeries (add_price h k (some p) now maxHours).1 k,
      now - s.timestamp ≤ maxHours * microsPerHour ∧
        ¬ (s.timestamp < now - maxHours * microsPerHour) := by
  intro s hs
  have ht := ((mem_add_price_series h k p now maxHours hp s).mp hs).2
  omega

/-- Witness for C5: after appending `(24h + 1, 200)` over a series whose old
sample gets trimmed, the surviving sample is within the horizon. -/
theorem add_price_retention_invariant_witness :
    (24 * microsPerHour + 1) - (⟨24 * microsPerHour + 1, 200⟩ : Sample).timestamp ≤
        24 * microsPerHour ∧
      ¬ ((⟨24 * microsPerHour + 1, 200⟩ : Sample).timestamp <
        (24 * microsPerHour + 1) - 24 * microsPerHour) := by
  refine add_price_retention_invariant [("BTCUSDT", [⟨0, 100⟩])] "BTCUSDT" 200
    (24 * microsPerHour + 1) 24 (by norm_num) ⟨24 * microsPerHour + 1, 200⟩ ?_
  rw [mem_add_price_series _ _ _ _ _ (by norm_num)]
  norm_num [microsPerHour]

/-- C7: over any series — including one holding non-positive prices, as a
persisted file may — and any set of windows, a sample with price `<= 0` is
never selected as a window's start sample: every `start_price` the result
carries is strictly positive, so the percentage-change division is only ever
performed with a positive start price. -/
theorem get_price_changes_never_selects_nonpositive (entries : List Sample)
    (windows : List Int) (w : Int) (r : ChangeResult)
    (hmem : (w, r) ∈ get_price_changes entries windows) :
    ∀ p, r.start_price = some p → 0 < p := by
  intro p hp
  unfold get_price_changes at hmem
  rcases hl : entries.getLast? with _ | last
  · rw [hl] at hmem; simp at hmem
  · rw [hl] at hmem
    simp only [List.mem_map] at hmem
    rcases hmem with ⟨w', -, heq⟩
    have hr : r = computeChange entries last.price last.timestamp w' :=
      ((Prod.mk.injEq _ _ _ _).mp heq).2.symm
    subst hr
    exact computeChange_start_price_pos entries last.price last.timestamp w' p hp

/-- Witness for C7: a series loaded with a negative-price sample; the window
result skips it, and the start price the theorem certifies is `100 > 0`. -/
theorem get_price_changes_never_selects_nonpositive_witness : (0 : ℚ) < 100 := by
  have hm : ((5 : Int), (⟨some 100, 100, 0⟩ : ChangeResult)) ∈
      get_price_changes [(⟨0, -5⟩ : Sample), ⟨100000000, 100⟩] [5] := by
    have he : get_price_changes [(⟨0, -5⟩ : Sample), ⟨100000000, 100⟩] [5] =
        [(5, ⟨some 100, 100, 0⟩)] := by
      norm_num [get_price_changes, computeChange, findStartPrice, pyRound2, pyRound0,
        microsPerMinute]
    rw [he]
    exact List.mem_singleton.mpr rfl
  exact get_price_changes_never_selects_nonpositive [⟨0, -5⟩, ⟨100000000, 100⟩] [5] 5
    ⟨some 100, 100, 0⟩ hm 100 rfl

/-- C9: on a non-empty series whose prices are all positive and a positive
window `w`, the insufficient-data branch is unreachable: the latest sample
itself satisfies `timestamp >= now_reference - w minutes` (its timestamp is
the reference), so a start sample is always found and `start_price` is never
`none`. -/
theorem get_price_changes_start_isSome (entries : List Sample) (w : Int)
    (last : Sample) (hlast : entries.getLast? = some last)
    (hpos : ∀ e ∈ entries, 0 < e.price) (hw : 0 < w) :
    ∀ r, (w, r) ∈ get_price_changes entries [w] → r.start_price ≠ none := by
  intro r hr
  rw [get_price_changes_single entries w last hlast] at hr
  simp only [List.mem_singleton, Prod.mk.injEq] at hr
  rcases hr with ⟨-, hr⟩
  subst hr
  rw [computeChange_start_price]
  have hlastmem : last ∈ entries := List.mem_of_getLast?_eq_some hlast
  have hsat : (fun e => decide (last.timestamp - w * microsPerMinute ≤ e.timestamp) &&
      decide (0 < e.price)) last = true := by
    simp only [Bool.and_eq_true, decide_eq_true_eq]
    refine ⟨?_, hpos last hlastmem⟩
    have hwpos : 0 < w * microsPerMinute :=
      mul_pos hw (by norm_num [microsPerMinute])
    omega
  have hsome : (entries.find? (fun e =>
      decide (last.timestamp - w * microsPerMinute ≤ e.timestamp) &&
        decide (0 < e.price))).isSome :=
    List.find?_isSome.mpr ⟨last, hlastmem, hsat⟩
  rcases hfound : entries.find? (fun e =>
      decide (last.timestamp - w * microsPerMinute ≤ e.timestamp) &&
        decide (0 < e.price)) with _ | e
  · rw [hfound] at hsome; simp at hsome
  · rw [hfound]; simp

/-- Witness for C9: on the all-positive two-sample series with window `5`,
the window's `start_price` is not `none`. -/
theorem get_price_changes_start_isSome_witness :
    (⟨some 100, 110, 10⟩ : ChangeResult).start_price ≠ none := by
  have hm : ((5 : Int), (⟨some 100, 110, 10⟩ : ChangeResult)) ∈
      get_price_changes [(⟨0, 100⟩ : Sample), ⟨240000000, 110⟩] [5] := by
    have he : get_price_changes [(⟨0, 100⟩ : Sample), ⟨240000000, 110⟩] [5] =
        [(5, ⟨some 100, 110, 10⟩)] := by
      norm_num [get_price_changes, computeChange, findStartPrice, pyRound2, pyRound0,
        microsPerMinute]
    rw [he]
    exact List.mem_singleton.mpr rfl
  exact get_price_changes_start_isSome [⟨0, 100⟩, ⟨240000000, 110⟩] 5
    ⟨240000000, 110⟩ (by decide) (by decide) (by decide) ⟨some 100, 110, 10⟩ hm

/-- Every sample of every series of the store has a strictly positive price. -/
def storeAllPos (h : Store) : Prop := ∀ kv ∈ h, ∀ s ∈ kv.2, 0 < s.price

/-- A lookup in a store of positive-price series yields positive prices. -/
theorem getSeries_allPos (h : Store) (k : String) (hh : storeAllPos h) :
    ∀ s ∈ getSeries h k, 0 < s.price := by
  induction h with
  | nil => intro s hs; simp [getSeries] at hs
  | cons kv rest ih =>
    rcases kv with ⟨k', v⟩
    intro s hs
    by_cases hk : k' = k
    · simp only [getSeries, if_pos hk] at hs
      exact hh (k', v) (List.mem_cons_self _ _) s hs
    · simp only [getSeries, if_neg hk] at hs
      exact ih (fun kv hkv => hh kv (List.mem_cons_of_mem _ hkv)) s hs

/-- Storing a positive-price series into a positive-price store keeps every
price positive. -/
theorem setSeries_allPos (h : Store) (k : String) (v : List Sample)
    (hh : storeAllPos h) (hv : ∀ s ∈ v, 0 < s.price) :
    storeAllPos (setSeries h k v) := by
  induction h with
  | nil =>
    intro kv hkv
    simp only [setSeries, List.mem_singleton] at hkv
    subst hkv
    exact hv
  | cons kv0 rest ih =>
    rcases kv0 with ⟨k', v'⟩
    intro kv hkv
    by_cases hk : k' = k
    · simp only [setSeries, if_pos hk, List.mem_cons] at hkv
      rcases hkv with hkv | hkv
      · subst hkv; exact hv
      · exact hh kv (List.mem_cons_of_mem _ hkv)
    · simp only [setSeries, if_neg hk, List.mem_cons] at hkv
      rcases hkv with hkv | hkv
      · subst hkv; exact hh (k', v') (List.mem_cons_self _ _)
      · exact ih (fun kv1 hkv1 => hh kv1 (List.mem_cons_of_mem _ hkv1)) kv hkv

/-- `add_price` preserves the all-prices-positive invariant: an invalid price
changes nothing, and a valid one appends only a positive price while the trim
only removes samples. -/
theorem add_price_allPos (h : Store) (k : String) (p : Option ℚ)
    (now maxHours : Int) (hh : storeAllPos h) :
    storeAllPos (add_price h k p now maxHours).1 := by
  rcases p with _ | q
  · exact hh
  · by_cases hq : q ≤ 0
    · simp only [add_price, if_pos hq]
      exact hh
    · simp only [add_price, if_neg hq]
      refine setSeries_allPos h k _ hh ?_
      intro s hs
      have hs' := List.mem_of_mem_filter hs
      rcases List.mem_append.mp hs' with hs'' | hs''
      · exact getSeries_allPos h k hh s hs''
      · rcases List.mem_singleton.mp hs'' with rfl
        exact lt_of_not_le hq

/-- The invariant holds along any sequence of `add_price` calls. -/
theorem applyOps_allPos (maxHours : Int) (ops : List Op) (h : Store)
    (hh : storeAllPos h) : storeAllPos (applyOps h maxHours ops) := by
  induction ops generalizing h with
  | nil => exact hh
  | cons op rest ih =>
    rcases op with ⟨k, p, t⟩
    exact ih _ (add_price_allPos h k p t maxHours hh)

/-- C10: starting from an empty store, every operation preserves the
invariant that every stored price is strictly positive: any sequence of
`add_price` calls leaves only positive prices in every series;
`add_price` with a missing price, or with a non-positive price, returns the
store entirely unchanged with no save (flag `false`).  `get_price_changes`
reads the series and returns a fresh mapping, so by construction it does not
modify the store. -/
theorem store_prices_always_positive :
    (∀ (maxHours : Int) (ops : List Op), ∀ kv ∈ applyOps [] maxHours ops,
      ∀ s ∈ kv.2, 0 < s.price) ∧
    (∀ (h : Store) (k : String) (t maxHours : Int),
      add_price h k none t maxHours = (h, false)) ∧
    (∀ (h : Store) (k : String) (p : ℚ) (t maxHours : Int), p ≤ 0 →
      add_price h k (some p) t maxHours = (h, false)) := by
  refine ⟨?_, ?_, ?_⟩
  · intro maxHours ops
    exact applyOps_allPos maxHours ops [] (by intro kv hkv; simp at hkv)
  · intro h k t maxHours
    rfl
  · intro h k p t maxHours hp
    simp only [add_price, if_pos hp]

/-- Witness for C10: a concrete run (one valid append, one `None`, one
non-positive price) leaves exactly one positive-price sample, and the
rejected calls leave the store untouched. -/
theorem store_prices_always_positive_witness :
    (0 : ℚ) < (⟨5, 2⟩ : Sample).price ∧
      add_price [("A", [⟨5, 2⟩])] "A" none 9 24 = ([("A", [⟨5, 2⟩])], false) ∧
      add_price [("A", [⟨5, 2⟩])] "A" (some 0) 9 24 = ([("A", [⟨5, 2⟩])], false) := by
  have h1 := store_prices_always_positive.1 24 [("A", some 2, 5), ("A", none, 6)]
    ("A", [⟨5, 2⟩])
  have h2 := store_prices_always_positive.2.1 [("A", [⟨5, 2⟩])] "A" 9 24
  have h3 := store_prices_always_positive.2.2 [("A", [⟨5, 2⟩])] "A" 0 9 24 le_rfl
  refine ⟨?_, h2, h3⟩
  refine h1 ?_ ⟨5, 2⟩ (List.mem_singleton.mpr rfl)
  show ("A", [(⟨5, 2⟩ : Sample)]) ∈ applyOps [] 24 [("A", some 2, 5), ("A", none, 6)]
  have he : applyOps ([] : Store) 24 [("A", some 2, 5), ("A", none, 6)] =
      [("A", [⟨5, 2⟩])] := by
    norm_num [applyOps, add_price, getSeries, setSeries, cleanup_old_data, microsPerHour]
  rw [he]
  exact List.mem_singleton.mpr rfl

/-- An alert fires only when the threshold is met, the change is within the
1000% sanity ceiling, and strictly more than the cooldown has elapsed since
the last alert for the pair. -/
theorem alertFires_conditions (cd : ChangeResult) (threshold lastAlert now : ℚ)
    (hf : alertFires cd threshold lastAlert now = true) :
    threshold ≤ |cd.change_percent| ∧ |cd.change_percent| ≤ 1000 ∧
      alert_cooldown < now - lastAlert := by
  rcases hsp : cd.start_price with _ | sp
  · simp [alertFires, hsp] at hf
  · simp only [alertFires, hsp] at hf
    split_ifs at hf with h1 h2 h3 h4
    · exact ⟨h4, le_of_not_lt h3, of_decide_eq_true hf⟩

/-- C6: for a `(symbol, window)` pair, an alert fires only when
`abs(change_percent) >= threshold`, `abs(change_percent)` is at most the
1000% sanity ceiling, and more than the cooldown (5 minutes) has elapsed
since the pair's last alert; consequently, once an alert fires at time `T`
(recording `T` as the pair's last alert time), no further alert fires for
that pair over any run of consecutive cycles whose times stay within
`T + cooldown`, however many of those cycles satisfy the threshold
condition. -/
theorem alert_fires_once_per_cooldown :
    (∀ (cd : ChangeResult) (threshold lastAlert now : ℚ),
      alertFires cd threshold lastAlert now = true →
        threshold ≤ |cd.change_percent| ∧ |cd.change_percent| ≤ 1000 ∧
          alert_cooldown < now - lastAlert) ∧
    (∀ (threshold T : ℚ) (cycles : List (ChangeResult × ℚ)),
      (∀ c ∈ cycles, c.2 - T ≤ alert_cooldown) →
        ∀ b ∈ runAlerts threshold T cycles, b = false) := by
  constructor
  · exact alertFires_conditions
  · intro threshold T cycles
    induction cycles with
    | nil => intro _ b hb; simp [runAlerts] at hb
    | cons c rest ih =>
      rcases c with ⟨cd, t⟩
      intro hall b hb
      have ht : t - T ≤ alert_cooldown := hall (cd, t) (List.mem_cons_self _ _)
      have hnf : alertFires cd threshold T t = false := by
        by_contra hc
        have htrue : alertFires cd threshold T t = true :=
          eq_true_of_ne_false (fun h => hc h)
        have := (alertFires_conditions cd threshold T t htrue).2.2
        linarith
      simp only [runAlerts, alertStep, hnf, if_false, Bool.false_eq_true,
        List.mem_cons] at hb
      rcases hb with hb | hb
      · exact hb
      · exact ih (fun c hc => hall c (List.mem_cons_of_mem _ hc)) b hb

/-- Witness for C6: a fire at `T = 0` requires its conditions (threshold 3,
change 10%, elapsed 301 > 300), and two later cycles at times 100 and 300 —
with the same 10% change still exceeding the threshold — both stay within the
cooldown of the recorded alert at time 0 and do not fire. -/
theorem alert_fires_once_per_cooldown_witness :
    ((3 : ℚ) ≤ |(⟨some 100, 110, 10⟩ : ChangeResult).change_percent| ∧
      |(⟨some 100, 110, 10⟩ : ChangeResult).change_percent| ≤ 1000 ∧
      alert_cooldown < (301 : ℚ) - 0) ∧
    (∀ b ∈ runAlerts 3 0 [(⟨some 100, 110, 10⟩, 100), (⟨some 100, 110, 10⟩, 300)],
      b = false) := by
  constructor
  · refine alert_fires_once_per_cooldown.1 ⟨some 100, 110, 10⟩ 3 0 301 ?_
    norm_num [alertFires, alert_cooldown]
  · refine alert_fires_once_per_cooldown.2 3 0
      [(⟨some 100, 110, 10⟩, 100), (⟨some 100, 110, 10⟩, 300)] ?_
    intro c hc
    simp only [List.mem_cons, List.mem_singleton, List.not_mem_nil, or_false] at hc
    rcases hc with rfl | rfl
    · norm_num [alert_cooldown]
    · norm_num [alert_cooldown]

/-- Encoding then decoding one series gives it back unchanged. -/
theorem decodeSamples_encode (ss : List Sample) :
    decodeSamples (ss.map encodeSample) = some ss := by
  induction ss with
  | nil => rfl
  | cons s rest ih => simp [List.map_cons, decodeSamples, decodeSample, encodeSample, ih]

/-- Encoding then decoding the store's fields gives them back unchanged. -/
theorem decodeFields_encode (h : Store) :
    decodeFields (h.map (fun kv => (kv.1, JVal.jarr (kv.2.map encodeSample)))) =
      some h := by
  induction h with
  | nil => rfl
  | cons kv rest ih =>
    rcases kv with ⟨k, v⟩
    simp [List.map_cons, decodeFields, decodeSamples_encode, ih]

/-- C8: persisting the store (`save_history` writes `self.history` verbatim
as JSON) and loading it back (`load_history` returns the parsed document
verbatim) yields an equal mapping: the same keys and, for each key, the same
samples with the same timestamps and prices in the same order.  (`json.dump`
and `json.load` are exact mutual inverses on this document: string keys,
arrays, ISO-8601 timestamp strings, and floats, which round-trip through
`repr`.) -/
theorem save_load_roundtrip (h : Store) : decodeStore (encodeStore h) = some h := by
  simp only [decodeStore, encodeStore]
  exact decodeFields_encode h

end BinanceMonitor
